import Mathlib

/-!
Verification of the note-management core of the Swift Notes application
(the `useNotes` hook and the import normalization in `NoteSidebar`).

Timestamps are modelled as natural numbers (milliseconds since the epoch,
the resolution of both `Date.now()` and `Date.prototype.toISOString`, so
JSON round-tripping of timestamps is exact at this resolution).  The
browser `localStorage` cell under the fixed key is modelled by `StoredVal`:
either absent, present but not valid JSON (`JSON.parse` throws on it), or a
parsed JSON array of records.
-/

namespace SwiftNotes

/-- Modelled from the spec: the `Note` entity (the repository's
`types/note.ts` is not under `src/`; the spec's data model lists the fields
`id`, `title`, `content`, `language`, `createdAt`, `updatedAt`).  The
`language` field is kept as a plain string because every operation in
`useNotes` treats it as one. -/
structure Note where
  id : String
  title : String
  content : String
  language : String
  createdAt : Nat
  updatedAt : Nat
deriving DecidableEq

/-- The shape of one record inside the JSON array stored under the key
`swift-notes`: `JSON.stringify` of a `Note` always emits every field, but a
record found in storage may lack `language` (the load path applies
`note.language || 'plaintext'`), so `language` is optional here.  String
fields round-trip through JSON exactly; dates serialize to ISO strings at
millisecond resolution, modelled as the `Nat` itself. -/
structure JsonNote where
  id : String
  title : String
  content : String
  language : Option String
  createdAt : Nat
  updatedAt : Nat
deriving DecidableEq

/-- The contents of the `localStorage` cell at the fixed key:
`absent` (`getItem` returns null), `malformed` (a string on which
`JSON.parse` throws), or a parsed JSON array of records. -/
inductive StoredVal where
  | absent : StoredVal
  | malformed : StoredVal
  | arr : List JsonNote → StoredVal
deriving DecidableEq

/-- The state the hook maintains: the in-memory `notes` array plus the
storage cell it writes through to. -/
structure StoreState where
  notes : List Note
  storage : StoredVal
deriving DecidableEq

/-- `JSON.stringify` of one note: every field present. -/
def encodeNote (n : Note) : JsonNote :=
  { id := n.id, title := n.title, content := n.content,
    language := some n.language,
    createdAt := n.createdAt, updatedAt := n.updatedAt }

/-- `localStorage.setItem(STORAGE_KEY, JSON.stringify(notes))`: the value
stored by `saveNotes`. -/
def saveList (notes : List Note) : StoredVal :=
  .arr (notes.map encodeNote)

/-- The per-record normalization in the load effect:
`{...note, language: note.language || 'plaintext',
createdAt: new Date(note.createdAt), updatedAt: new Date(note.updatedAt)}`.
A missing or empty (falsy) `language` becomes `plaintext`; any other string
passes through unchanged. -/
def decodeRecord (j : JsonNote) : Note :=
  { id := j.id, title := j.title, content := j.content,
    language :=
      match j.language with
      | none => "plaintext"
      | some s => if s = "" then "plaintext" else s,
    createdAt := j.createdAt, updatedAt := j.updatedAt }

/-- The seed note created when storage is empty (`id: '1'`, fixed welcome
title and content, `plaintext`, both timestamps now). -/
def welcomeNote (now : Nat) : Note :=
  { id := "1",
    title := "Welcome to Swift Notes",
    content := "Start writing your thoughts here. This is a simple and elegant notes app where you can create, edit, and organize your notes.\n\nFeatures:\n• Clean, distraction-free writing\n• Auto-save functionality\n• Search through your notes\n• Elegant design\n\nClick the \"+\" button to create a new note!",
    language := "plaintext",
    createdAt := now, updatedAt := now }

/-- The mount effect of `useNotes`: if the stored value is present it is
parsed and each record normalized (`JSON.parse(savedNotes).map(...)`); this
call is NOT wrapped in try/catch, so a malformed value makes `JSON.parse`
throw and the exception propagates out of the effect (modelled as
`Except.error`).  If the value is absent, exactly one welcome note is
seeded and persisted. -/
def initNotes (now : Nat) (sv : StoredVal) : Except String StoreState :=
  match sv with
  | .absent => .ok { notes := [welcomeNote now], storage := saveList [welcomeNote now] }
  | .malformed => .error "SyntaxError: JSON.parse"
  | .arr js => .ok { notes := js.map decodeRecord, storage := .arr js }

/-- The argument of `updateNote`:
`Partial<Omit<Note, 'id' | 'createdAt'>>` — an optional new value for each
of `title`, `content`, `language` (`updatedAt` supplied by the caller is
immediately overwritten by the operation itself, so it is omitted). -/
structure NoteUpdate where
  title : Option String := none
  content : Option String := none
  language : Option String := none
deriving DecidableEq

/-- `{ ...note, ...updates, updatedAt: new Date() }`. -/
def applyUpdate (n : Note) (u : NoteUpdate) (now : Nat) : Note :=
  { n with
    title := u.title.getD n.title,
    content := u.content.getD n.content,
    language := u.language.getD n.language,
    updatedAt := now }

/-- `createNote`: builds the new note (`id: Date.now().toString()`, default
title/content, `plaintext`, both timestamps now), prepends it, and returns
it together with the updated list. -/
def createNote (now : Nat) (notes : List Note) : Note × List Note :=
  let newNote : Note :=
    { id := toString now, title := "Untitled Note", content := "",
      language := "plaintext", createdAt := now, updatedAt := now }
  (newNote, newNote :: notes)

/-- `updateNote`: map over the collection, merging the updates into the
note whose `id` matches and refreshing its `updatedAt`. -/
def updateNote (now : Nat) (id : String) (u : NoteUpdate) (notes : List Note) : List Note :=
  notes.map fun n => if n.id = id then applyUpdate n u now else n

/-- `deleteNote`: keep every note whose `id` differs from the argument. -/
def deleteNote (id : String) (notes : List Note) : List Note :=
  notes.filter fun n => n.id != id

/-- `importNotes`: drop incoming notes whose `id` is already present in the
existing collection, then prepend the remainder. -/
def importNotes (imported : List Note) (notes : List Note) : List Note :=
  let existingIds := notes.map Note.id
  (imported.filter fun n => !(existingIds.contains n.id)) ++ notes

/-- An incoming record of `handleFileChange` in `NoteSidebar`: a parsed
JSON object whose `id`, `language`, and timestamps may be missing (the
claims under verification only concern such records with string `title`
and `content` present). -/
structure ImportedRecord where
  id : Option String := none
  title : String := ""
  content : String := ""
  language : Option String := none
  createdAt : Option Nat := none
  updatedAt : Option Nat := none
deriving DecidableEq

/-- The per-record normalization in `handleFileChange`:
`id: note.id || Date.now().toString() + Math.random()`,
`createdAt: new Date(note.createdAt || Date.now())`,
`updatedAt: new Date(note.updatedAt || Date.now())`,
`language: note.language || 'plaintext'`.
`rand` stands for the stringified `Math.random()` component of a generated
id. -/
def normalizeImported (now : Nat) (rand : String) (r : ImportedRecord) : Note :=
  { id :=
      match r.id with
      | none => toString now ++ rand
      | some s => if s = "" then toString now ++ rand else s,
    title := r.title, content := r.content,
    language :=
      match r.language with
      | none => "plaintext"
      | some s => if s = "" then "plaintext" else s,
    createdAt := r.createdAt.getD now,
    updatedAt := r.updatedAt.getD now }

/-- The fixed set of language tags offered by the editor's language
selector (the `languages` array in `NoteEditor`). -/
def languageValues : List String :=
  ["plaintext", "javascript", "typescript", "html", "css", "lua",
   "python", "java", "cpp", "json", "markdown", "xml", "sql", "php",
   "go", "rust"]

/-- State-level `createNote`: the hook's `saveNotes(updatedNotes)` both
replaces the in-memory array and writes the serialized collection through
to storage. -/
def createNoteS (now : Nat) (s : StoreState) : Note × StoreState :=
  let p := createNote now s.notes
  (p.1, { notes := p.2, storage := saveList p.2 })

/-- Collections reachable from an application start (seeded welcome note or
a loaded storage array) by `create` / `update` / `delete` operations, where
an `update` draws any new `language` value from the editor's fixed language
list (per the data model, `language` is a tag from that enumerated set). -/
inductive Reachable : List Note → Prop where
  | seeded (now : Nat) : Reachable [welcomeNote now]
  | loaded (js : List JsonNote) : Reachable (js.map decodeRecord)
  | created (now : Nat) (notes : List Note) :
      Reachable notes → Reachable (createNote now notes).2
  | updated (now : Nat) (id : String) (u : NoteUpdate) (notes : List Note) :
      Reachable notes → (∀ s, u.language = some s → s ∈ languageValues) →
      Reachable (updateNote now id u notes)
  | deleted (id : String) (notes : List Note) :
      Reachable notes → Reachable (deleteNote id notes)

/-! ### Helper lemmas -/

lemma languageValues_ne_empty : ∀ s ∈ languageValues, s ≠ "" := by decide

lemma decode_encode (n : Note) (h : n.language ≠ "") :
    decodeRecord (encodeNote n) = n := by
  simp only [decodeRecord, encodeNote]
  rw [if_neg h]

lemma load_save_list (notes : List Note) (h : ∀ n ∈ notes, n.language ≠ "") :
    (notes.map encodeNote).map decodeRecord = notes := by
  induction notes with
  | nil => rfl
  | cons a l ih =>
      simp only [List.map_cons]
      rw [decode_encode a (h a (by simp)), ih (fun n hn => h n (by simp [hn]))]

/-! ### Sample data used by witnesses -/

def origNote : Note := ⟨"1", "orig", "c", "plaintext", 0, 0⟩

def impX : Note := ⟨"1", "X", "", "plaintext", 5, 5⟩

def impY : Note := ⟨"2", "Y", "", "plaintext", 5, 5⟩

def dupNote : Note := ⟨"2", "a", "b", "plaintext", 0, 0⟩

def noteTwo : Note := ⟨"2", "t2", "", "plaintext", 0, 0⟩

def noteThree : Note := ⟨"3", "t3", "", "plaintext", 0, 0⟩

def t0Note : Note := ⟨"1", "t", "", "plaintext", 0, 0⟩

/-! ### Claim theorems -/

/-- C7: `create()` builds the note with default title and content, language
plain text, both timestamps equal to the current time and the
timestamp-derived id; it prepends the note to the collection, writes the
full updated collection through to storage, and returns the new note; two
consecutive creates leave the second call's note at index 0 and the first
call's note at index 1. -/
theorem create_defaults_prepend_persist (now t2 : Nat) (s : StoreState) :
    (createNoteS now s).1.id = toString now ∧
    (createNoteS now s).1.title = "Untitled Note" ∧
    (createNoteS now s).1.content = "" ∧
    (createNoteS now s).1.language = "plaintext" ∧
    (createNoteS now s).1.createdAt = now ∧
    (createNoteS now s).1.updatedAt = now ∧
    (createNoteS now s).2.notes = (createNoteS now s).1 :: s.notes ∧
    (createNoteS now s).2.storage = saveList ((createNoteS now s).1 :: s.notes) ∧
    (createNoteS t2 (createNoteS now s).2).2.notes
      = (createNoteS t2 (createNoteS now s).2).1 :: (createNoteS now s).1 :: s.notes :=
  ⟨rfl, rfl, rfl, rfl, rfl, rfl, rfl, rfl, rfl⟩

/-- C6: on a collection containing no note with the target id, both
`updateNote` and `deleteNote` leave the collection unchanged (silent
no-ops: nothing thrown, nothing inserted, length and contents
identical). -/
theorem update_delete_missing_id_noop (now : Nat) (id : String) (u : NoteUpdate)
    (notes : List Note) (h : ∀ n ∈ notes, n.id ≠ id) :
    updateNote now id u notes = notes ∧ deleteNote id notes = notes := by
  constructor
  · unfold updateNote
    have h1 : notes.map (fun n => if n.id = id then applyUpdate n u now else n)
        = notes.map (fun n => n) :=
      List.map_congr_left (by intro n hn; rw [if_neg (h n hn)])
    simpa using h1
  · unfold deleteNote
    exact List.filter_eq_self.mpr (by intro n hn; simpa using h n hn)

/-- C6 witness: a concrete collection with no note of id `zzz` is left
unchanged by update and delete. -/
theorem update_delete_missing_id_noop_witness :
    updateNote 5 "zzz" ⟨some "t", none, none⟩ [welcomeNote 0] = [welcomeNote 0] ∧
    deleteNote "zzz" [welcomeNote 0] = [welcomeNote 0] :=
  update_delete_missing_id_noop 5 "zzz" ⟨some "t", none, none⟩ [welcomeNote 0] (by decide)

/-- C10: `deleteNote id` removes every note whose id equals the argument,
keeps the remaining notes unchanged and in their relative order (the
result is a sublist of the input containing every non-matching note), and
is idempotent. -/
theorem delete_removes_all_frame_idempotent (id : String) (notes : List Note) :
    (∀ n ∈ deleteNote id notes, n.id ≠ id) ∧
    List.Sublist (deleteNote id notes) notes ∧
    (∀ n ∈ notes, n.id ≠ id → n ∈ deleteNote id notes) ∧
    deleteNote id (deleteNote id notes) = deleteNote id notes := by
  refine ⟨?_, List.filter_sublist notes, ?_, ?_⟩
  · intro n hn
    have := List.of_mem_filter hn
    simpa using this
  · intro n hn hne
    exact List.mem_filter.mpr ⟨hn, by simpa using hne⟩
  · simp only [deleteNote]
    refine List.filter_eq_self.mpr (fun n hn => ?_)
    have h1 := List.of_mem_filter hn
    exact h1

/-- C10 witness: deleting id `d` from a collection holding two notes with
that id removes both of them and keeps the other note. -/
theorem delete_removes_all_witness :
    deleteNote "d" [⟨"d", "a", "b", "plaintext", 0, 0⟩, noteTwo, ⟨"d", "c", "e", "plaintext", 1, 1⟩]
      = [noteTwo] ∧
    (∀ n ∈ deleteNote "d" [⟨"d", "a", "b", "plaintext", 0, 0⟩, noteTwo, ⟨"d", "c", "e", "plaintext", 1, 1⟩],
      n.id ≠ "d") :=
  ⟨by decide,
   (delete_removes_all_frame_idempotent "d"
     [⟨"d", "a", "b", "plaintext", 0, 0⟩, noteTwo, ⟨"d", "c", "e", "plaintext", 1, 1⟩]).1⟩

/-- C3: `importNotes` keeps the existing collection as an unchanged suffix
of the result (colliding pre-existing notes win, with every field intact),
prepends exactly those incoming records whose id is not already present,
in their import order (the prepended part is a sublist of the incoming
batch), and every non-colliding incoming record does appear in the
result. -/
theorem import_dedup_prepend (imported notes : List Note) :
    List.IsSuffix notes (importNotes imported notes) ∧
    (∃ pre, importNotes imported notes = pre ++ notes ∧
      List.Sublist pre imported ∧
      ∀ r ∈ pre, r.id ∉ notes.map Note.id) ∧
    (∀ r ∈ imported, r.id ∉ notes.map Note.id → r ∈ importNotes imported notes) := by
  refine ⟨List.suffix_append _ _,
    ⟨imported.filter fun n => !((notes.map Note.id).contains n.id), rfl,
      List.filter_sublist _, ?_⟩, ?_⟩
  · intro r hr hmem
    have h1 := List.of_mem_filter hr
    simp only [Bool.not_eq_true'] at h1
    have h2 : (notes.map Note.id).contains r.id = true := List.elem_iff.mpr hmem
    rw [h1] at h2
    cases h2
  · intro r hr hni
    unfold importNotes
    refine List.mem_append_left _ (List.mem_filter.mpr ⟨hr, ?_⟩)
    simp only [Bool.not_eq_true']
    cases hc : (notes.map Note.id).contains r.id with
    | false => rfl
    | true => exact absurd (List.elem_iff.mp hc) hni

/-- C3 witness: the spec's scenario — importing records with ids `1` and
`2` into a collection already holding id `1` yields two notes: the
existing note (title retained) and the new id-`2` note. -/
theorem import_dedup_prepend_witness :
    importNotes [impX, impY] [origNote] = [impY, origNote] ∧
    List.IsSuffix [origNote] (importNotes [impX, impY] [origNote]) :=
  ⟨by decide, (import_dedup_prepend [impX, impY] [origNote]).1⟩

/-- C1 counterexample: `importNotes` only filters incoming ids against the
ids already in the collection, so an incoming batch that itself repeats an
id produces a collection with duplicate ids — id uniqueness does not hold
in every reachable state. -/
theorem import_batch_duplicate_ids_cex :
    importNotes [dupNote, dupNote] [] = [dupNote, dupNote] ∧
    ¬ ((importNotes [dupNote, dupNote] []).map Note.id).Nodup :=
  ⟨by decide, by decide⟩

/-- C1 amended: `updateNote` leaves the id sequence of the collection
unchanged, `deleteNote` preserves pairwise-distinct ids, `createNote`
preserves them provided its timestamp-derived id is not already present,
and `importNotes` preserves them provided the incoming batch's own ids are
pairwise distinct (within-batch duplicates are not deduplicated). -/
theorem unique_ids_preserved (now : Nat) (id : String) (u : NoteUpdate)
    (notes imported : List Note) :
    (updateNote now id u notes).map Note.id = notes.map Note.id ∧
    ((notes.map Note.id).Nodup → ((deleteNote id notes).map Note.id).Nodup) ∧
    ((notes.map Note.id).Nodup → toString now ∉ notes.map Note.id →
      (((createNote now notes).2).map Note.id).Nodup) ∧
    ((notes.map Note.id).Nodup → (imported.map Note.id).Nodup →
      ((importNotes imported notes).map Note.id).Nodup) := by
  refine ⟨?_, ?_, ?_, ?_⟩
  · unfold updateNote
    rw [List.map_map]
    refine List.map_congr_left (fun n hn => ?_)
    simp only [Function.comp_apply]
    by_cases hc : n.id = id
    · rw [if_pos hc]; rfl
    · rw [if_neg hc]
  · intro h
    exact List.Sublist.nodup (List.Sublist.map Note.id (List.filter_sublist notes)) h
  · intro h hni
    exact List.nodup_cons.mpr ⟨hni, h⟩
  · intro h hi
    unfold importNotes
    rw [List.map_append]
    refine List.Nodup.append ?_ h ?_
    · exact List.Sublist.nodup (List.Sublist.map Note.id (List.filter_sublist imported)) hi
    · intro a ha hb
      obtain ⟨n, hn, rfl⟩ := List.mem_map.mp ha
      have hp := List.of_mem_filter hn
      simp only [Bool.not_eq_true'] at hp
      have h2 : (notes.map Note.id).contains n.id = true := List.elem_iff.mpr hb
      rw [hp] at h2
      cases h2

/-- C1 amended witness: creating at time 7 over the seeded collection and
importing two records with fresh distinct ids both keep the id sequence
pairwise distinct. -/
theorem unique_ids_preserved_witness :
    (((createNote 7 [welcomeNote 0]).2).map Note.id).Nodup ∧
    ((importNotes [noteTwo, noteThree] [welcomeNote 0]).map Note.id).Nodup :=
  ⟨(unique_ids_preserved 7 "q" {} [welcomeNote 0] []).2.2.1 (by decide) (by decide),
   (unique_ids_preserved 7 "q" {} [welcomeNote 0] [noteTwo, noteThree]).2.2.2
     (by decide) (by decide)⟩

/-- C8 counterexample: the load normalization `note.language || 'plaintext'`
only replaces a missing (falsy) language; a present but unrecognized tag
such as `scala` passes through unchanged, so not every decoded note carries
a tag from the fixed enumerated set. -/
theorem load_language_unrecognized_cex :
    (decodeRecord ⟨"1", "t", "c", some "scala", 0, 0⟩).language = "scala" ∧
    languageValues.contains (decodeRecord ⟨"1", "t", "c", some "scala", 0, 0⟩).language = false ∧
    (decodeRecord ⟨"1", "t", "c", some "scala", 0, 0⟩).language ≠ "plaintext" :=
  ⟨by decide, by decide, by decide⟩

/-- C8 amended: on load, a record's language becomes `plaintext` exactly
when it is absent or empty (falsy); any other string — recognized or not —
is kept verbatim. -/
theorem load_language_default (j : JsonNote) :
    ((j.language = none ∨ j.language = some "") → (decodeRecord j).language = "plaintext") ∧
    (∀ s, j.language = some s → s ≠ "" → (decodeRecord j).language = s) := by
  constructor
  · rintro (h | h) <;> simp [decodeRecord, h]
  · intro s hs hne
    simp [decodeRecord, hs, hne]

/-- C8 amended witness: an absent language decodes to `plaintext`; the
recognized tag `lua` is kept. -/
theorem load_language_default_witness :
    (decodeRecord ⟨"1", "t", "c", none, 0, 0⟩).language = "plaintext" ∧
    (decodeRecord ⟨"1", "t", "c", some "lua", 0, 0⟩).language = "lua" :=
  ⟨(load_language_default ⟨"1", "t", "c", none, 0, 0⟩).1 (Or.inl rfl),
   (load_language_default ⟨"1", "t", "c", some "lua", 0, 0⟩).2 "lua" rfl (by decide)⟩

/-- C4 counterexample: on a stored value that is not valid JSON the load
effect's `JSON.parse` throws and nothing catches it, so the result is the
propagating error, not the seeded welcome state — the application does not
fall back to the welcome note. -/
theorem malformed_load_cex :
    initNotes 5 StoredVal.malformed = Except.error "SyntaxError: JSON.parse" ∧
    initNotes 5 StoredVal.malformed ≠
      Except.ok { notes := [welcomeNote 5], storage := saveList [welcomeNote 5] } :=
  ⟨rfl, fun h => Except.noConfusion h⟩

/-- C4 amended: a malformed stored value makes the load effect throw an
uncaught decode error (modelled as `Except.error`); the welcome note is
seeded only when the stored value is absent. -/
theorem malformed_load_throws (now : Nat) :
    initNotes now StoredVal.malformed = Except.error "SyntaxError: JSON.parse" ∧
    initNotes now StoredVal.absent =
      Except.ok { notes := [welcomeNote now], storage := saveList [welcomeNote now] } :=
  ⟨rfl, rfl⟩

/-- C5: for the note at a position whose id matches, `updateNote` merges
the provided `title`/`content`/`language` into the existing note, keeps
`id` and `createdAt` unchanged, and sets `updatedAt` to the current time
(strictly later than the old `updatedAt` whenever the clock advanced);
notes at non-matching positions are untouched and the length is
preserved. -/
theorem update_merges_fields (now : Nat) (id : String) (u : NoteUpdate)
    (notes : List Note) (i : Nat) (hi : i < notes.length)
    (hr : i < (updateNote now id u notes).length) :
    (updateNote now id u notes).length = notes.length ∧
    ((notes.get ⟨i, hi⟩).id = id →
      ((updateNote now id u notes).get ⟨i, hr⟩).id = (notes.get ⟨i, hi⟩).id ∧
      ((updateNote now id u notes).get ⟨i, hr⟩).createdAt = (notes.get ⟨i, hi⟩).createdAt ∧
      ((updateNote now id u notes).get ⟨i, hr⟩).updatedAt = now ∧
      ((updateNote now id u notes).get ⟨i, hr⟩).title = u.title.getD (notes.get ⟨i, hi⟩).title ∧
      ((updateNote now id u notes).get ⟨i, hr⟩).content = u.content.getD (notes.get ⟨i, hi⟩).content ∧
      ((updateNote now id u notes).get ⟨i, hr⟩).language = u.language.getD (notes.get ⟨i, hi⟩).language ∧
      ((notes.get ⟨i, hi⟩).updatedAt < now →
        (notes.get ⟨i, hi⟩).updatedAt < ((updateNote now id u notes).get ⟨i, hr⟩).updatedAt)) ∧
    ((notes.get ⟨i, hi⟩).id ≠ id →
      (updateNote now id u notes).get ⟨i, hr⟩ = notes.get ⟨i, hi⟩) := by
  have hget : (updateNote now id u notes).get ⟨i, hr⟩
      = (fun n => if n.id = id then applyUpdate n u now else n) (notes.get ⟨i, hi⟩) := by
    simp [updateNote, List.getElem_map]
  refine ⟨by simp [updateNote], ?_, ?_⟩
  · intro hcase
    rw [hget]
    simp only [if_pos hcase]
    exact ⟨rfl, rfl, rfl, rfl, rfl, rfl, fun hlt => hlt⟩
  · intro hcase
    rw [hget]
    simp only [if_neg hcase]

/-- C5 witness: the spec's scenario — `update("1", {content:"hello"})` at
time 5 on a collection holding one note with id `1`, empty content and
`updatedAt` 0 yields content `hello` and a strictly larger `updatedAt`. -/
theorem update_merges_fields_witness :
    ((updateNote 5 "1" ⟨none, some "hello", none⟩ [t0Note]).get ⟨0, by decide⟩).content = "hello" ∧
    t0Note.updatedAt
      < ((updateNote 5 "1" ⟨none, some "hello", none⟩ [t0Note]).get ⟨0, by decide⟩).updatedAt := by
  have h := update_merges_fields 5 "1" ⟨none, some "hello", none⟩ [t0Note] 0 (by decide) (by decide)
  have h2 := h.2.1 (by decide)
  exact ⟨h2.2.2.2.2.1, h2.2.2.2.2.2.2 (by decide)⟩

/-- C9 counterexample: the import normalization fills only missing
timestamps and never compares them, so a record carrying
`createdAt = 100, updatedAt = 50` is imported as a note with
`updatedAt < createdAt`, violating the invariant in a reachable
collection. -/
theorem import_normalization_timestamps_cex :
    (normalizeImported 7 "r" ⟨some "9", "t", "c", some "plaintext", some 100, some 50⟩).createdAt = 100 ∧
    (normalizeImported 7 "r" ⟨some "9", "t", "c", some "plaintext", some 100, some 50⟩).updatedAt = 50 ∧
    ¬ (∀ n ∈ importNotes
          [normalizeImported 7 "r" ⟨some "9", "t", "c", some "plaintext", some 100, some 50⟩] [],
        n.createdAt ≤ n.updatedAt) :=
  ⟨by decide, by decide, by decide⟩

/-- C9 amended: `createNote` makes the two timestamps equal, and both
`createNote` and `updateNote` preserve `createdAt ≤ updatedAt` whenever
the clock is at or past every note's `createdAt`; per note, `updateNote`
never decreases `updatedAt` when the clock is at or past the old
`updatedAt`.  (Import normalization does not enforce the invariant; see
the counterexample.) -/
theorem timestamps_invariant (now : Nat) (id : String) (u : NoteUpdate) (notes : List Note)
    (h1 : ∀ n ∈ notes, n.createdAt ≤ n.updatedAt)
    (h2 : ∀ n ∈ notes, n.createdAt ≤ now) :
    (createNote now notes).1.createdAt = (createNote now notes).1.updatedAt ∧
    (∀ n ∈ (createNote now notes).2, n.createdAt ≤ n.updatedAt) ∧
    (∀ n ∈ updateNote now id u notes, n.createdAt ≤ n.updatedAt) ∧
    (∀ i, (hi : i < notes.length) → (hr : i < (updateNote now id u notes).length) →
      (notes.get ⟨i, hi⟩).updatedAt ≤ now →
      (notes.get ⟨i, hi⟩).updatedAt ≤ ((updateNote now id u notes).get ⟨i, hr⟩).updatedAt) := by
  refine ⟨rfl, ?_, ?_, ?_⟩
  · intro n hn
    simp only [createNote, List.mem_cons] at hn
    rcases hn with rfl | hn
    · exact Nat.le_refl now
    · exact h1 n hn
  · intro n hn
    simp only [updateNote, List.mem_map] at hn
    obtain ⟨m, hm, rfl⟩ := hn
    by_cases hc : m.id = id
    · simp only [if_pos hc, applyUpdate]
      exact h2 m hm
    · simp only [if_neg hc]
      exact h1 m hm
  · intro i hi hr hle
    have hget : (updateNote now id u notes).get ⟨i, hr⟩
        = (fun n => if n.id = id then applyUpdate n u now else n) (notes.get ⟨i, hi⟩) := by
      simp [updateNote, List.getElem_map]
    rw [hget]
    by_cases hc : (notes.get ⟨i, hi⟩).id = id
    · simp only [if_pos hc, applyUpdate]
      exact hle
    · simp only [if_neg hc]
      exact Nat.le_refl _

/-- C9 amended witness: over the seeded collection, creating at time 7 and
updating the content at time 9 both keep `createdAt ≤ updatedAt`
everywhere. -/
theorem timestamps_invariant_witness :
    (∀ n ∈ (createNote 7 [welcomeNote 3]).2, n.createdAt ≤ n.updatedAt) ∧
    (∀ n ∈ updateNote 9 "1" ⟨none, some "hello", none⟩ [welcomeNote 3],
      n.createdAt ≤ n.updatedAt) :=
  ⟨(timestamps_invariant 7 "1" {} [welcomeNote 3] (by decide) (by decide)).2.1,
   (timestamps_invariant 9 "1" ⟨none, some "hello", none⟩ [welcomeNote 3]
     (by decide) (by decide)).2.2.1⟩

/-- Every note in a reachable collection has a non-empty language tag:
seeding and loading only produce `plaintext` or a stored non-empty string,
creation produces `plaintext`, and updates draw languages from the
editor's fixed list. -/
lemma reachable_language_ne_empty {notes : List Note} (h : Reachable notes) :
    ∀ n ∈ notes, n.language ≠ "" := by
  induction h with
  | seeded now =>
      intro n hn
      rw [List.mem_singleton] at hn
      subst hn
      simp [welcomeNote]
  | loaded js =>
      intro n hn
      obtain ⟨j, hj, rfl⟩ := List.mem_map.mp hn
      simp only [decodeRecord]
      cases hl : j.language with
      | none => simp
      | some s =>
          by_cases hs : s = ""
          · simp [hs]
          · simp [hs]
  | created now notes _ ih =>
      intro n hn
      simp only [createNote, List.mem_cons] at hn
      rcases hn with rfl | hn
      · simp
      · exact ih n hn
  | updated now id u notes _ hu ih =>
      intro n hn
      simp only [updateNote, List.mem_map] at hn
      obtain ⟨m, hm, rfl⟩ := hn
      by_cases hc : m.id = id
      · simp only [if_pos hc, applyUpdate]
        cases hlang : u.language with
        | none => simpa using ih m hm
        | some s => simpa using languageValues_ne_empty s (hu s hlang)
      · simp only [if_neg hc]
        exact ih m hm
  | deleted id notes _ ih =>
      intro n hn
      exact ih n (List.mem_of_mem_filter hn)

/-- C2: round-trip fidelity — for every collection reachable by
create/update/delete from an application start, loading immediately after
saving yields exactly the in-memory collection (timestamps round-trip
exactly at the millisecond resolution of the model). -/
theorem load_after_save_roundtrip (now : Nat) (notes : List Note) (h : Reachable notes) :
    initNotes now (saveList notes)
      = Except.ok { notes := notes, storage := saveList notes } := by
  simp only [saveList, initNotes]
  rw [load_save_list notes (reachable_language_ne_empty h)]

/-- C2 witness: the collection obtained by seeding at time 2 and updating
the welcome note's content at time 9 is returned verbatim by a load
immediately after a save. -/
theorem load_after_save_roundtrip_witness :
    initNotes 3 (saveList (updateNote 9 "1" ⟨none, some "hi", none⟩ [welcomeNote 2]))
      = Except.ok { notes := updateNote 9 "1" ⟨none, some "hi", none⟩ [welcomeNote 2],
                    storage := saveList (updateNote 9 "1" ⟨none, some "hi", none⟩ [welcomeNote 2]) } :=
  load_after_save_roundtrip 3 _
    (Reachable.updated 9 "1" ⟨none, some "hi", none⟩ [welcomeNote 2]
      (Reachable.seeded 2) (fun _ hs => nomatch hs))

end SwiftNotes
